import Mathlib

/-!
# Verification of the LawCrawler batch/persistence core

Shallow embedding of the shared crawler infrastructure of the
LawCrawler-Refactored repository (`src/crawler/base_crawler.py` and the
per-site crawler modules), together with proofs settling the specification
claims about it.

Network fetches and HTML parsing are effectful and site-dependent; they are
embedded by passing the observable outcome of each fetch/parse step
(an "oracle" record per crawler) as an explicit argument, while every piece
of control flow — chunking, exception containment, counting, fallbacks,
early returns, filename derivation, serialization — is transcribed from the
Python source.
-/

namespace LawCrawler

/-! ## Batch fetch pipeline (`BaseLawCrawler.process_batch`)

`process_batch(urls, process_func)` iterates `for i in range(0, len(urls),
batch_size)`, slices `batch = urls[i:i+batch_size]`, submits one future per
url in the batch, and as futures complete adds 1 to `processed_count` when
`future.result()` is truthy, catching any exception at the item boundary.
-/

/-- Outcome of one `process_func(url)` invocation: the call either raised an
exception, or returned a value whose Python truthiness is recorded. -/
inductive ItemOutcome where
  | raised
  | returned (truthy : Bool)
deriving DecidableEq, Repr

/-- `future.result()` contributed 1 to `processed_count` exactly when the call
returned a truthy value (a raised exception is caught and contributes 0). -/
def ItemOutcome.isSuccess : ItemOutcome → Bool
  | .raised => false
  | .returned t => t

/-- The consecutive slices `urls[i:i+B]` for `i = 0, B, 2B, ...` produced by
`range(0, len(urls), batch_size)`. -/
def chunksOf (B : ℕ) : List α → List (List α)
  | [] => []
  | x :: xs => (x :: xs).take B :: chunksOf B (xs.drop (B - 1))
  termination_by l => l.length
  decreasing_by
    simp only [List.length_drop, List.length_cons]
    omega

/-- The list of arguments `process_func` is applied to, in submission order:
one `executor.submit(process_func, url)` per url of each batch. -/
def submittedCalls (B : ℕ) (urls : List α) : List α :=
  (chunksOf B urls).flatten

/-- `process_batch` with an explicit completion schedule: within each batch the
results are consumed in `as_completed` order, an arbitrary permutation `perm`
of the submission order.  The returned value is `processed_count`. -/
def processBatchWith (perm : List α → List α) (f : α → ItemOutcome) (B : ℕ)
    (urls : List α) : ℕ :=
  ((chunksOf B urls).map (fun batch =>
    (perm batch).countP (fun u => (f u).isSuccess))).sum

/-- `process_batch` counts successes; consumption in submission order. -/
def processBatch (f : α → ItemOutcome) (B : ℕ) (urls : List α) : ℕ :=
  processBatchWith id f B urls

theorem chunksOf_flatten (B : ℕ) (hB : 1 ≤ B) :
    ∀ l : List α, (chunksOf B l).flatten = l := by
  intro l
  induction l using chunksOf.induct B with
  | case1 => simp [chunksOf]
  | case2 x xs ih =>
    rw [chunksOf]
    simp only [List.flatten_cons, ih]
    rw [List.take_cons (by omega : 0 < B)]
    simp only [List.cons_append, List.cons.injEq, true_and]
    have : B - 1 + 1 = B := by omega
    exact List.take_append_drop _ _

theorem processBatchWith_eq_countP (perm : List α → List α)
    (hperm : ∀ l : List α, (perm l).Perm l) (f : α → ItemOutcome) (B : ℕ)
    (hB : 1 ≤ B) (urls : List α) :
    processBatchWith perm f B urls = urls.countP (fun u => (f u).isSuccess) := by
  unfold processBatchWith
  have hmap : (chunksOf B urls).map (fun batch =>
      (perm batch).countP (fun u => (f u).isSuccess)) =
      (chunksOf B urls).map (fun batch =>
        batch.countP (fun u => (f u).isSuccess)) := by
    apply List.map_congr_left
    intro batch _
    exact (hperm batch).countP_eq _
  rw [hmap, ← List.countP_flatten, chunksOf_flatten B hB]

theorem countP_odd_range (N : ℕ) :
    (List.range N).countP (fun i => decide (i % 2 = 1)) = N / 2 := by
  induction N with
  | zero => simp
  | succ n ih =>
    rw [List.range_succ, List.countP_append, ih]
    by_cases h : n % 2 = 1
    · simp [List.countP_cons, h]
      omega
    · simp [List.countP_cons, h]
      omega

/-- C1: for every item list, batch size `B ≥ 1`, worker count `C ≥ 1`, per-item
function and completion schedule, `process_batch` submits exactly one
invocation of the per-item function per item — the submission-order list of
arguments is the input list itself, so no item is skipped or duplicated by the
chunking, irrespective of the outcomes of individual invocations (the worker
count only bounds parallelism inside a batch and never alters which futures
are submitted). -/
theorem process_batch_invokes_each_item_once (B C : ℕ) (hB : 1 ≤ B)
    (hC : 1 ≤ C) (urls : List α) :
    submittedCalls B urls = urls ∧
      (submittedCalls B urls).length = urls.length := by
  refine ⟨chunksOf_flatten B hB urls, ?_⟩
  rw [show submittedCalls B urls = urls from chunksOf_flatten B hB urls]

theorem process_batch_invokes_each_item_once_witness :
    submittedCalls 2 [10, 11, 12, 13, 14] = [10, 11, 12, 13, 14] ∧
      (submittedCalls 2 [10, 11, 12, 13, 14]).length = [10, 11, 12, 13, 14].length :=
  process_batch_invokes_each_item_once 2 3 (by decide) (by decide) [10, 11, 12, 13, 14]

/-- The extractor of the spec's failure-injection scenario: it raises on items
at even indices and returns a truthy result on items at odd indices. -/
def evenIndexFails (i : ℕ) : ItemOutcome :=
  if i % 2 = 0 then .raised else .returned true

/-- C2: `process_batch` catches every exception at the item boundary: for any
per-item function (raising or returning falsy on arbitrary items), any batch
size `B ≥ 1`, and any `as_completed` completion schedule, it runs to
completion and returns exactly the number of items with a truthy result; in
particular, with an extractor that raises on even indices over the items
`0, …, N-1`, the return value is the number of odd indices, `N / 2`, and no
exception escapes (the result is total and counts the post-failure items). -/
theorem process_batch_error_containment (perm : List ℕ → List ℕ)
    (hperm : ∀ l : List ℕ, (perm l).Perm l) (f : ℕ → ItemOutcome) (B N : ℕ)
    (hB : 1 ≤ B) (urls : List ℕ) :
    processBatchWith perm f B urls = urls.countP (fun u => (f u).isSuccess) ∧
      processBatchWith perm evenIndexFails B (List.range N) =
        (List.range N).countP (fun i => decide (i % 2 = 1)) ∧
      processBatchWith perm evenIndexFails B (List.range N) = N / 2 := by
  have hgen := processBatchWith_eq_countP perm hperm f B hB urls
  have heven := processBatchWith_eq_countP perm hperm evenIndexFails B hB (List.range N)
  have hfun : ∀ i : ℕ, (evenIndexFails i).isSuccess = decide (i % 2 = 1) := by
    intro i
    unfold evenIndexFails
    rcases Nat.mod_two_eq_zero_or_one i with h | h <;>
      simp [h, ItemOutcome.isSuccess]
  have hcount : (List.range N).countP (fun u => (evenIndexFails u).isSuccess) =
      (List.range N).countP (fun i => decide (i % 2 = 1)) :=
    List.countP_congr (fun i _ => by rw [hfun i])
  refine ⟨hgen, ?_, ?_⟩
  · rw [heven, hcount]
  · rw [heven, hcount, countP_odd_range]

theorem process_batch_error_containment_witness :
    processBatchWith id evenIndexFails 2 [3, 4, 5] =
        [3, 4, 5].countP (fun u => (evenIndexFails u).isSuccess) ∧
      processBatchWith id evenIndexFails 2 (List.range 5) =
        (List.range 5).countP (fun i => decide (i % 2 = 1)) ∧
      processBatchWith id evenIndexFails 2 (List.range 5) = 5 / 2 :=
  process_batch_error_containment id (fun l => List.Perm.refl l) evenIndexFails
    2 5 (by decide) [3, 4, 5]

/-! ## Per-law processing and filename derivation

`CentralLawCrawler.process_law(url)` (and likewise Taipei/Taichung/NewTaipei):

    law_data = self.get_law_json(url)
    if law_data and law_data["LawName"]:
        filename = f"{law_data['LawName']}.json"
        self.save_json(law_data, filename)
        return True
    return False

`KaohsiungLawCrawler.process_law(law_info)` (and likewise Taoyuan) instead
sanitizes the title before deriving the filename:

    safe_filename = "".join([c for c in law_data["LawName"]
                             if c.isalnum() or c in ' _-']).strip()
    if not safe_filename:
        safe_filename = f"law_{hash(law_data['LawName']) % 10000}"
    filename = f"{safe_filename}.json"

Strings are embedded as `List Char`.  Extraction (`get_law_json`) is network-
and HTML-dependent, so its result is passed in as an `Option` record. -/

/-- The record built by `CentralLawCrawler.get_law_json` (a dict with these
keys; articles are (ArticleNo, ArticleContent) pairs). -/
structure CentralLawData where
  LawName : List Char
  LawCategory : List Char
  LawModifiedDate : List Char
  LawHistories : List Char
  LawArticles : List (List Char × List Char)
  LawURL : List Char
deriving DecidableEq, Repr

/-- The record built by `KaohsiungLawCrawler.get_law_json`. -/
structure KaohsiungLawData where
  LawName : List Char
  LawURL : List Char
  LawDate : List Char
  LawType : List Char
  LawCategory : List Char
  LawPublishDate : List Char
  LawModifiedDate : List Char
  LawArticles : List (List Char × List Char)
deriving DecidableEq, Repr

/-- `CentralLawCrawler.process_law` given the extraction result: returns the
list of `save_json(data, filename)` calls made and the boolean return value.
The Python guard `if law_data and law_data["LawName"]` is truthy exactly when
extraction returned a record (a nonempty dict) with a nonempty name. -/
def centralProcessLaw (r? : Option CentralLawData) :
    List (CentralLawData × List Char) × Bool :=
  match r? with
  | some d => if d.LawName ≠ [] then ([(d, d.LawName ++ ".json".data)], true)
              else ([], false)
  | none => ([], false)

/-- `c.isalnum()` of Python, Unicode-aware.  On ASCII it is exactly
letter-or-digit; non-ASCII characters are modelled as alphanumeric (true for
the CJK law titles this crawler handles; only the ASCII behaviour — which
characters like `/`, `.`, `*` are rejected — is load-bearing below). -/
def pythonIsAlnum (c : Char) : Bool :=
  c.isAlphanum || 0x80 ≤ c.toNat

/-- Python `str.strip()` whitespace. -/
def isPySpace (c : Char) : Bool :=
  c = ' ' || c = '\t' || c = '\n' || c = '\r' || c = '\x0b' || c = '\x0c'

/-- Python `str.strip()`: drop whitespace from both ends. -/
def pyStrip (s : List Char) : List Char :=
  (((s.dropWhile isPySpace).reverse.dropWhile isPySpace)).reverse

/-- Decimal digit character, `'0'`–`'9'`. -/
def decDigit (d : ℕ) : Char := Char.ofNat (48 + d)

/-- Decimal rendering of a natural number (Python `f"{n}"`), most significant
digit first. -/
def natDec (n : ℕ) : List Char :=
  if _h : n < 10 then [decDigit n]
  else natDec (n / 10) ++ [decDigit (n % 10)]
  termination_by n
  decreasing_by omega

/-- The character filter of the sanitizer:
`c.isalnum() or c in ' _-'`. -/
def kaohsiungKeep (c : Char) : Bool :=
  pythonIsAlnum c || c = ' ' || c = '_' || c = '-'

/-- The sanitized filename stem of `KaohsiungLawCrawler.process_law` /
`TaoyuanLawCrawler.process_law`.  `hashName` stands for Python's per-process
string hash (reduced mod 10000 as in the source). -/
def kaohsiungSafeStem (hashName : List Char → ℕ) (name : List Char) :
    List Char :=
  let safe := pyStrip (name.filter kaohsiungKeep)
  if safe = [] then "law_".data ++ natDec (hashName name % 10000)
  else safe

/-- `KaohsiungLawCrawler.process_law` given the extraction result. -/
def kaohsiungProcessLaw (hashName : List Char → ℕ)
    (r? : Option KaohsiungLawData) :
    List (KaohsiungLawData × List Char) × Bool :=
  match r? with
  | some d => if d.LawName ≠ [] then
                ([(d, kaohsiungSafeStem hashName d.LawName ++ ".json".data)],
                  true)
              else ([], false)
  | none => ([], false)

/-- C3: in the Central and Kaohsiung crawlers, `process_law` calls `save_json`
(exactly once) if and only if extraction returned a record with a non-empty
`LawName`; when extraction returned `None` or an empty title, it performs no
save and returns `False` (a total function of the extraction result — nothing
is raised), discarding the record silently. -/
theorem process_law_persists_iff_nonempty_title
    (hashName : List Char → ℕ) (r? : Option CentralLawData)
    (k? : Option KaohsiungLawData) :
    ((centralProcessLaw r?).1 ≠ [] ↔ ∃ d, r? = some d ∧ d.LawName ≠ []) ∧
      ((centralProcessLaw r?).2 = true ↔ (centralProcessLaw r?).1 ≠ []) ∧
      centralProcessLaw none = ([], false) ∧
      (∀ d, d.LawName = [] → centralProcessLaw (some d) = ([], false)) ∧
      ((kaohsiungProcessLaw hashName k?).1 ≠ [] ↔
        ∃ d, k? = some d ∧ d.LawName ≠ []) ∧
      ((kaohsiungProcessLaw hashName k?).2 = true ↔
        (kaohsiungProcessLaw hashName k?).1 ≠ []) ∧
      kaohsiungProcessLaw hashName none = ([], false) ∧
      (∀ d, d.LawName = [] →
        kaohsiungProcessLaw hashName (some d) = ([], false)) := by
  refine ⟨?_, ?_, rfl, ?_, ?_, ?_, rfl, ?_⟩
  · cases r? with
    | none => simp [centralProcessLaw]
    | some d =>
      by_cases h : d.LawName = [] <;> simp [centralProcessLaw, h]
  · cases r? with
    | none => simp [centralProcessLaw]
    | some d =>
      by_cases h : d.LawName = [] <;> simp [centralProcessLaw, h]
  · intro d h
    simp [centralProcessLaw, h]
  · cases k? with
    | none => simp [kaohsiungProcessLaw]
    | some d =>
      by_cases h : d.LawName = [] <;> simp [kaohsiungProcessLaw, h]
  · cases k? with
    | none => simp [kaohsiungProcessLaw]
    | some d =>
      by_cases h : d.LawName = [] <;> simp [kaohsiungProcessLaw, h]
  · intro d h
    simp [kaohsiungProcessLaw, h]

/-- A concrete extracted central record with a non-empty title. -/
def sampleCentralData : CentralLawData :=
  { LawName := "民法".data, LawCategory := "行政".data,
    LawModifiedDate := "1100120".data, LawHistories := [],
    LawArticles := [("第 1 條".data, "民事".data)], LawURL := "u".data }

/-- The same record with its title emptied. -/
def sampleCentralDataNoTitle : CentralLawData :=
  { sampleCentralData with LawName := [] }

theorem process_law_persists_iff_nonempty_title_witness :
    (centralProcessLaw (some sampleCentralData)).1 ≠ [] ∧
      centralProcessLaw (some sampleCentralDataNoTitle) = ([], false) ∧
      kaohsiungProcessLaw (fun _ => 7) none = ([], false) := by
  obtain ⟨h1, _, _, h4, _, _, h7, _⟩ :=
    process_law_persists_iff_nonempty_title (fun _ => 7)
      (some sampleCentralData) none
  exact ⟨h1.mpr ⟨sampleCentralData, rfl, by decide⟩,
    h4 sampleCentralDataNoTitle rfl, h7⟩


theorem natDec_mem_digit {n : ℕ} {c : Char} (hc : c ∈ natDec n) :
    48 ≤ c.toNat ∧ c.toNat ≤ 57 := by
  induction n using natDec.induct with
  | case1 n h =>
    rw [natDec, dif_pos h] at hc
    simp only [List.mem_singleton] at hc
    subst hc
    unfold decDigit
    interval_cases n <;> decide
  | case2 n h ih =>
    rw [natDec, dif_neg (by omega)] at hc
    rcases List.mem_append.mp hc with h1 | h1
    · exact ih h1
    · simp only [List.mem_singleton] at h1
      subst h1
      unfold decDigit
      have h2 : n % 10 < 10 := Nat.mod_lt _ (by norm_num)
      interval_cases hm : n % 10 <;> decide

theorem pyStrip_subset (l : List Char) : ∀ c ∈ pyStrip l, c ∈ l := by
  intro c hc
  unfold pyStrip at hc
  rw [List.mem_reverse] at hc
  have h1 := (List.dropWhile_sublist (l := (l.dropWhile isPySpace).reverse)
    (p := isPySpace)).mem hc
  rw [List.mem_reverse] at h1
  exact (List.dropWhile_sublist (l := l) (p := isPySpace)).mem h1

/-- A record whose title is made of filesystem-hostile characters: under
`CentralLawCrawler.process_law` the filename is derived from the raw title. -/
def hostileTitleCentralData : CentralLawData :=
  { LawName := "../evil".data, LawCategory := [], LawModifiedDate := [],
    LawHistories := [], LawArticles := [], LawURL := "u".data }

/-- C5 counterexample: the claim fails on the code.  The Central crawler's
`process_law` performs no sanitization: a title of filesystem-hostile
characters is interpolated verbatim into the filename, which here starts with
`../` — under `os.path.join(output_dir, filename)` a path that escapes the
output directory — and contains the path separator `/`, a character the
Kaohsiung sanitizer would have removed. -/
theorem central_filename_unsanitized_cex :
    (centralProcessLaw (some hostileTitleCentralData)).1 =
      [(hostileTitleCentralData, "../evil.json".data)] ∧
      ("../evil.json".data).take 3 = "../".data ∧
      '/' ∈ "../evil.json".data ∧ kaohsiungKeep '/' = false := by
  refine ⟨?_, by decide, by decide, by decide⟩
  decide

theorem natDec_ne_slash_dot {n : ℕ} {c : Char} (hc : c ∈ natDec n) :
    c ≠ '/' ∧ c ≠ '.' := by
  obtain ⟨h1, h2⟩ := natDec_mem_digit hc
  constructor <;> intro h <;> subst h <;> simp_all

theorem kaohsiungKeep_mem_not_hostile {c : Char}
    (h : kaohsiungKeep c = true) : c ≠ '/' ∧ c ≠ '.' := by
  constructor <;> intro hcase <;> subst hcase <;> simp [kaohsiungKeep,
    pythonIsAlnum, Char.isAlphanum, Char.isAlpha, Char.isUpper, Char.isLower,
    Char.isDigit] at h

/-- C5 (amended): only the Kaohsiung and Taoyuan crawlers sanitize the record
title before deriving the filename.  There, for every title and every hash
function, the sanitized stem is non-empty, the filename `stem + ".json"`
contains no path separator, the stem contains no `.` (so no `..` path
component), and a title consisting only of slashes sanitizes to empty and
takes the deterministic hash-derived fallback `law_<hash mod 10000>`. -/
theorem kaohsiung_sanitized_filename_safe (hashName : List Char → ℕ)
    (name : List Char) :
    kaohsiungSafeStem hashName name ≠ [] ∧
      (∀ c ∈ kaohsiungSafeStem hashName name ++ ".json".data, c ≠ '/') ∧
      (∀ c ∈ kaohsiungSafeStem hashName name, c ≠ '.') ∧
      ((∀ c ∈ name, c = '/') →
        kaohsiungSafeStem hashName name =
          "law_".data ++ natDec (hashName name % 10000)) := by
  have hmem : ∀ c ∈ kaohsiungSafeStem hashName name, c ≠ '/' ∧ c ≠ '.' := by
    intro c hc
    unfold kaohsiungSafeStem at hc
    by_cases hsafe : pyStrip (name.filter kaohsiungKeep) = []
    · rw [if_pos hsafe] at hc
      rcases List.mem_append.mp hc with h1 | h1
      · constructor <;> intro h <;> subst h <;> exact absurd h1 (by decide)
      · exact natDec_ne_slash_dot h1
    · rw [if_neg hsafe] at hc
      have h2 : c ∈ name.filter kaohsiungKeep := pyStrip_subset _ c hc
      exact kaohsiungKeep_mem_not_hostile (List.of_mem_filter h2)
  refine ⟨?_, ?_, fun c hc => (hmem c hc).2, ?_⟩
  · unfold kaohsiungSafeStem
    by_cases hsafe : pyStrip (name.filter kaohsiungKeep) = []
    · rw [if_pos hsafe]
      intro h
      have h4 : ("law_".data ++ natDec (hashName name % 10000)).length = 0 := by
        rw [h]; rfl
      rw [List.length_append] at h4
      have h5 : ("law_".data).length = 4 := rfl
      omega
    · rw [if_neg hsafe]
      exact hsafe
  · intro c hc
    rcases List.mem_append.mp hc with h1 | h1
    · exact (hmem c h1).1
    · intro h
      subst h
      exact absurd h1 (by decide)
  · intro hall
    have hfil : name.filter kaohsiungKeep = [] := by
      rw [List.filter_eq_nil_iff]
      intro a ha
      rw [hall a ha]
      decide
    unfold kaohsiungSafeStem
    rw [hfil]
    simp [pyStrip]

theorem kaohsiung_sanitized_filename_safe_witness :
    kaohsiungSafeStem (fun _ => 1234) "///".data ≠ [] ∧
      kaohsiungSafeStem (fun _ => 1234) "///".data =
        "law_".data ++ natDec (1234 % 10000) := by
  obtain ⟨h1, _, _, h4⟩ :=
    kaohsiung_sanitized_filename_safe (fun _ => 1234) "///".data
  exact ⟨h1, h4 (by decide)⟩

/-! ## Outbound network calls and timeouts

Static inventory of every `self.session.get(...)` call in the six crawler
modules, with the `timeout` keyword argument each call passes (`none` when the
call passes no timeout).  Transcribed call by call from the source. -/

/-- One `session.get` call site: defining module, enclosing method, and the
`timeout=` argument (in seconds) if present. -/
structure SessionGetCall where
  crawler : String
  method : String
  timeout : Option ℕ
deriving DecidableEq, Repr

/-- All `session.get` call sites of the repository, in file order. -/
def sessionGetCalls : List SessionGetCall :=
  [⟨"central_law_crawler", "get_category_links", none⟩,
   ⟨"central_law_crawler", "get_law_links", none⟩,
   ⟨"central_law_crawler", "get_law_json", some 10⟩,
   ⟨"taipei_law_crawler", "get_total_pages", none⟩,
   ⟨"taipei_law_crawler", "get_law_urls", none⟩,
   ⟨"taipei_law_crawler", "get_law_json_info", none⟩,
   ⟨"taipei_law_crawler", "get_law_json_content", none⟩,
   ⟨"new_taipei_law_crawler", "get_law_links_from_category", none⟩,
   ⟨"new_taipei_law_crawler", "try_get_content", none⟩,
   ⟨"new_taipei_law_crawler", "get_law_urls", none⟩,
   ⟨"taichung_law_crawler", "get_categories", none⟩,
   ⟨"taichung_law_crawler", "get_law_links_from_category", none⟩,
   ⟨"taichung_law_crawler", "get_law_json", none⟩,
   ⟨"taoyuan_law_crawler", "get_all_laws_url", none⟩,
   ⟨"taoyuan_law_crawler", "get_law_links_from_page", none⟩,
   ⟨"taoyuan_law_crawler", "get_law_json", none⟩,
   ⟨"kaohsiung_law_crawler", "get_all_laws_url", none⟩,
   ⟨"kaohsiung_law_crawler", "get_law_links_from_page", none⟩,
   ⟨"kaohsiung_law_crawler", "get_law_json", none⟩]

/-- C6 (code bug): the claim — every `session.get` call carries an explicit
per-request timeout — is the spec's stated mandate ("absence of a timeout is a
defect"), but the code violates it: of the 19 `session.get` call sites only
`CentralLawCrawler.get_law_json` passes `timeout=10`; the remaining 18,
including the per-item detail fetch `TaichungLawCrawler.get_law_json` cited by
the spec, pass no timeout at all. -/
theorem session_get_missing_timeout :
    (⟨"taichung_law_crawler", "get_law_json", none⟩ : SessionGetCall)
        ∈ sessionGetCalls ∧
      (sessionGetCalls.filter (fun s => s.timeout = none)).length = 18 ∧
      (sessionGetCalls.filter (fun s => s.timeout ≠ none)).length = 1 ∧
      ¬ (∀ s ∈ sessionGetCalls, s.timeout ≠ none) := by
  refine ⟨by decide, by decide, by decide, ?_⟩
  intro h
  exact h ⟨"central_law_crawler", "get_category_links", none⟩ (by decide) rfl

/-! ## Listing discovery: Central crawler

`CentralLawCrawler.get_category_links` wraps its fetch+parse in `try`: on an
exception it returns four hard-coded "emergency" category links; on success it
takes the links parsed from the category tree, falls back to the links of the
alternative selector when the tree yields none, and, when both are empty,
extends the (empty) list with the same four emergency links.
`CentralLawCrawler.get_law_urls` walks the categories accumulating
`get_law_links`, returns early as soon as the accumulator is non-empty, and
when every category yielded nothing returns three hard-coded emergency law
URLs.  The outcome of each network fetch + HTML parse is supplied by a
`CentralDiscovery` oracle; all branching is transcribed from the source. -/

/-- Observable outcomes of the Central crawler's listing fetches:
`categoryPage = none` models the `except` path of `get_category_links`;
`some (tree, alt)` gives the non-repealed links parsed from the category tree
and from the fallback selector.  `lawLinks c = none` models the `except` path
of `get_law_links c`; `some ls` its parsed law links. -/
structure CentralDiscovery where
  categoryPage : Option (List String × List String)
  lawLinks : String → Option (List String)

/-- The four hard-coded fallback category links of `get_category_links`. -/
def emergencyCategoryLinks : List String :=
  ["https://law.moj.gov.tw/LawSearchLaw.aspx?TY=01000",
   "https://law.moj.gov.tw/LawSearchLaw.aspx?TY=02000",
   "https://law.moj.gov.tw/LawSearchLaw.aspx?TY=03000",
   "https://law.moj.gov.tw/LawSearchLaw.aspx?TY=04000"]

/-- The three hard-coded fallback law URLs of `get_law_urls`. -/
def emergencyLawUrls : List String :=
  ["https://law.moj.gov.tw/LawAll.aspx?PCODE=A0000001",
   "https://law.moj.gov.tw/LawAll.aspx?PCODE=B0000001",
   "https://law.moj.gov.tw/LawAll.aspx?PCODE=C0000001"]

/-- `CentralLawCrawler.get_category_links` (the link list it returns). -/
def centralGetCategoryLinks (d : CentralDiscovery) : List String :=
  match d.categoryPage with
  | none => emergencyCategoryLinks
  | some (tree, alt) =>
    let links := if tree = [] then alt else tree
    if links = [] then emergencyCategoryLinks else links

/-- `CentralLawCrawler.get_law_links` (exceptions are caught, returning `[]`). -/
def centralGetLawLinks (d : CentralDiscovery) (cat : String) : List String :=
  (d.lawLinks cat).getD []

/-- The category loop of `get_law_urls`: extend the accumulator with each
category's links, returning as soon as the accumulator is non-empty. -/
def centralCollectLoop (d : CentralDiscovery) (acc : List String) :
    List String → List String
  | [] => acc
  | c :: cs =>
    let acc2 := acc ++ centralGetLawLinks d c
    if acc2.length > 0 then acc2 else centralCollectLoop d acc2 cs

/-- `CentralLawCrawler.get_law_urls`. -/
def centralGetLawUrls (d : CentralDiscovery) : List String :=
  let cats := centralGetCategoryLinks d
  if cats = [] then []
  else
    let allUrls := centralCollectLoop d [] cats
    if allUrls = [] then emergencyLawUrls else allUrls

/-! ## Listing discovery: Taichung crawler

`TaichungLawCrawler.get_categories` returns the parsed category links or `[]`
on an exception.  `get_law_links_from_category` pages through a category: each
page parse appends its links; an exception breaks the loop keeping what was
collected; a page with no further-page link (modelled as the end of the
oracle's page list) ends the loop.  `get_law_urls` concatenates over all
categories, and `run` returns early — handing nothing to `process_batch` —
when the list is empty. -/

/-- A Taichung work item as collected from a listing row. -/
structure TaichungItem where
  url : String
  name : String
deriving DecidableEq, Repr

/-- Observable outcomes of the Taichung crawler's listing fetches:
`categories = none` models the `except` path of `get_categories`;
`pages c` gives, for category `c`, the outcomes of its successive listing
pages in order (`none` = the fetch/parse of that page raised; the end of the
list = no next-page link). -/
structure TaichungDiscovery where
  categories : Option (List String)
  pages : String → List (Option (List TaichungItem))

/-- `TaichungLawCrawler.get_categories`. -/
def taichungGetCategories (d : TaichungDiscovery) : List String :=
  d.categories.getD []

/-- The page loop of `TaichungLawCrawler.get_law_links_from_category`: collect
links page by page; an exception breaks the loop, keeping what was
collected. -/
def taichungCollectPages : List (Option (List TaichungItem)) →
    List TaichungItem
  | [] => []
  | none :: _ => []
  | some ls :: rest => ls ++ taichungCollectPages rest

/-- `TaichungLawCrawler.get_law_links_from_category`. -/
def taichungGetLawLinksFromCategory (d : TaichungDiscovery) (cat : String) :
    List TaichungItem :=
  taichungCollectPages (d.pages cat)

/-- `TaichungLawCrawler.get_law_urls`: every category's links, in category
order, with no early exit. -/
def taichungGetLawUrls (d : TaichungDiscovery) : List TaichungItem :=
  (taichungGetCategories d).flatMap (taichungGetLawLinksFromCategory d)

/-- `TaichungLawCrawler.run` up to the hand-off to `process_batch`: `none`
when `law_infos` is empty (the run logs an error and returns before any
processing), otherwise the item list handed to the pipeline. -/
def taichungRunBatchItems (d : TaichungDiscovery) :
    Option (List TaichungItem) :=
  let lawInfos := taichungGetLawUrls d
  if lawInfos = [] then none else some lawInfos

/-- A discovery oracle on which every Central listing fetch raises. -/
def centralAllFail : CentralDiscovery :=
  { categoryPage := none, lawLinks := fun _ => none }

/-- C7 counterexample: the claim fails on the code.  With every listing fetch
of the Central crawler failing, `get_law_urls` does not yield zero work items:
it fabricates the three hard-coded emergency law URLs (after
`get_category_links` already fabricated four emergency category links), so the
pipeline runs over substitute work items. -/
theorem central_fabricates_emergency_work_cex :
    centralGetLawUrls centralAllFail = emergencyLawUrls ∧
      emergencyLawUrls ≠ [] ∧
      centralGetCategoryLinks centralAllFail = emergencyCategoryLinks := by
  refine ⟨?_, by decide, rfl⟩
  rfl

/-- C7 (amended): the Taichung crawler (and the other municipal crawlers)
behaves as claimed: whenever listing discovery fails or finds nothing —
`get_categories` raised or parsed no category, or every category yielded no
links — `get_law_urls` returns the empty work-item list and `run` terminates
early without handing anything to the batch pipeline; no substitute work items
are fabricated.  The Central crawler instead falls back to hard-coded
emergency URLs (see the counterexample). -/
theorem taichung_empty_listing_terminates_early (d : TaichungDiscovery) :
    (d.categories = none → taichungGetLawUrls d = []) ∧
      (taichungGetLawUrls d = [] → taichungRunBatchItems d = none) ∧
      (taichungGetCategories d = [] → taichungRunBatchItems d = none) := by
  refine ⟨?_, ?_, ?_⟩
  · intro h
    simp [taichungGetLawUrls, taichungGetCategories, h]
  · intro h
    simp [taichungRunBatchItems, h]
  · intro h
    simp [taichungRunBatchItems, taichungGetLawUrls, h]

/-- A discovery oracle on which every Taichung listing fetch raises. -/
def taichungAllFail : TaichungDiscovery :=
  { categories := none, pages := fun _ => [] }

theorem taichung_empty_listing_terminates_early_witness :
    taichungGetLawUrls taichungAllFail = [] ∧
      taichungRunBatchItems taichungAllFail = none := by
  obtain ⟨h1, h2, _⟩ := taichung_empty_listing_terminates_early taichungAllFail
  exact ⟨h1 rfl, h2 (h1 rfl)⟩

/-- A Central discovery oracle with two working categories, each yielding a
distinct law link. -/
def centralTwoCats : CentralDiscovery :=
  { categoryPage := some (["cat1", "cat2"], []),
    lawLinks := fun c => if c = "cat1" then some ["L1"] else some ["L2"] }

/-- C8 counterexample: the claim fails on the code.  With two discovered
categories each yielding a law link, `CentralLawCrawler.get_law_urls` returns
after the first category whose accumulated links are non-empty ("為了測試目的"
early return), handing the pipeline only `["L1"]` and omitting the second
category's discovered link `"L2"`. -/
theorem central_early_return_omits_links_cex :
    centralGetLawUrls centralTwoCats = ["L1"] ∧
      "cat2" ∈ centralGetCategoryLinks centralTwoCats ∧
      centralGetLawLinks centralTwoCats "cat2" = ["L2"] ∧
      "L2" ∉ centralGetLawUrls centralTwoCats := by
  refine ⟨rfl, by decide, rfl, by decide⟩

/-- C8 (amended): the Taichung crawler (like the other municipal crawlers, but
unlike Central) first obtains the full work-item list — the concatenation,
over every discovered category, of all links collected from that category's
pages — and only then hands exactly that list to the batch pipeline: no
discovered category's links are omitted. -/
theorem taichung_collects_all_categories (d : TaichungDiscovery) :
    (∀ c ∈ taichungGetCategories d,
      ∀ it ∈ taichungGetLawLinksFromCategory d c, it ∈ taichungGetLawUrls d) ∧
      (taichungGetLawUrls d ≠ [] →
        taichungRunBatchItems d = some (taichungGetLawUrls d)) := by
  constructor
  · intro c hc it hit
    exact List.mem_flatMap.mpr ⟨c, hc, hit⟩
  · intro h
    simp [taichungRunBatchItems, h]

/-- A Taichung discovery oracle with two categories, one item each. -/
def taichungTwoCats : TaichungDiscovery :=
  { categories := some ["c1", "c2"],
    pages := fun c => if c = "c1" then [some [⟨"u1", "n1"⟩]]
                      else [some [⟨"u2", "n2"⟩]] }

theorem taichung_collects_all_categories_witness :
    (⟨"u2", "n2"⟩ : TaichungItem) ∈ taichungGetLawUrls taichungTwoCats ∧
      taichungRunBatchItems taichungTwoCats =
        some (taichungGetLawUrls taichungTwoCats) := by
  obtain ⟨h1, h2⟩ := taichung_collects_all_categories taichungTwoCats
  exact ⟨h1 "c2" (by decide) ⟨"u2", "n2"⟩ (by decide), h2 (by decide)⟩

/-! ## Rate limiter (`BaseLawCrawler.random_delay`)

`random_delay` sleeps for `random.uniform(delay_min, delay_max)`, where
CPython's `random.uniform(a, b)` computes `a + (b - a) * random()` with
`random()` drawn uniformly from `[0, 1)`.  The draw is passed in explicitly as
`r`; the slept duration is the modelled value. -/

/-- Delay bounds of a crawler configuration (`delay_min`, `delay_max`). -/
structure DelayConfig where
  delay_min : ℝ
  delay_max : ℝ

/-- `random.uniform(a, b) = a + (b - a) * r` for the draw `r ∈ [0, 1)`. -/
def randomUniform (a b r : ℝ) : ℝ := a + (b - a) * r

/-- The duration `BaseLawCrawler.random_delay` sleeps, given the draw `r`. -/
def randomDelay (cfg : DelayConfig) (r : ℝ) : ℝ :=
  randomUniform cfg.delay_min cfg.delay_max r

/-- C9: every `random_delay` sleep lies in the closed interval
`[delay_min, delay_max]` whenever `delay_min ≤ delay_max` and the uniform draw
lies in `[0, 1)`; in the degenerate case `delay_min = delay_max` the duration
equals that constant exactly, for every draw. -/
theorem random_delay_within_bounds (cfg : DelayConfig) (r : ℝ)
    (hle : cfg.delay_min ≤ cfg.delay_max) (hr0 : 0 ≤ r) (hr1 : r < 1) :
    cfg.delay_min ≤ randomDelay cfg r ∧
      randomDelay cfg r ≤ cfg.delay_max ∧
      (cfg.delay_min = cfg.delay_max → randomDelay cfg r = cfg.delay_min) := by
  unfold randomDelay randomUniform
  refine ⟨?_, ?_, ?_⟩
  · nlinarith
  · nlinarith
  · intro h
    rw [h]
    ring

theorem random_delay_within_bounds_witness :
    (1 : ℝ) ≤ randomDelay ⟨1, 2⟩ (1 / 2) ∧
      randomDelay ⟨1, 2⟩ (1 / 2) ≤ 2 ∧
      ((1 : ℝ) = 2 → randomDelay ⟨1, 2⟩ (1 / 2) = 1) :=
  random_delay_within_bounds ⟨1, 2⟩ (1 / 2) (by norm_num) (by norm_num)
    (by norm_num)

/-! ## New Taipei crawler: non-empty-articles invariant

`NewTaipeiLawCrawler.try_get_content(url, law_info)` returns `None` when the
page has neither `table.tab-law01 tr` nor `table.tab-law tr` rows, otherwise
builds a record whose `LawArticles` are the `(num, content)` pairs of rows
exposing both cells, and returns it only if some article was collected
(`return law_data if law_data["LawArticles"] else None`); an exception also
yields `None`.  `get_law_json` first tries the `FLAWDAT0202` URL and falls
back to `FLAWDAT0201` only when that yielded no content, then stamps the used
URL into the record.  `process_law` saves when the result is truthy with a
truthy `LawName`. -/

/-- The record built by `NewTaipeiLawCrawler.try_get_content`. -/
structure NewTaipeiLawData where
  LawName : List Char
  LastModified : List Char
  LawArticles : List (List Char × List Char)
  LawURL : List Char
deriving DecidableEq, Repr

/-- One parsed row of a New Taipei content table: the texts of its `.col-th`
and `.col-td pre` cells, when present. -/
structure NewTaipeiRow where
  num : Option (List Char)
  content : Option (List Char)
deriving DecidableEq, Repr

/-- What fetching one New Taipei content URL observably yields:
the fetch/parse raised, or a page (`hasLawRows` = some of the two article
tables has rows; `headerDate` = the parenthesized date of the page header, if
found; `rows` = the parsed rows of the article table). -/
inductive NewTaipeiFetch where
  | raised
  | page (hasLawRows : Bool) (headerDate : List Char) (rows : List NewTaipeiRow)

/-- The article pairs collected by the row loop of `try_get_content`: one
`(ArticleNo, ArticleContent)` entry per row whose two cells are present. -/
def newTaipeiArticles (rows : List NewTaipeiRow) :
    List (List Char × List Char) :=
  rows.filterMap (fun row =>
    match row.num, row.content with
    | some n, some c => some (n, c)
    | _, _ => none)

/-- `NewTaipeiLawCrawler.try_get_content url law_info`, given the fetch
outcome for `url`. -/
def tryGetContent (fetch : NewTaipeiFetch) (title : List Char) :
    Option NewTaipeiLawData :=
  match fetch with
  | .raised => none
  | .page hasLawRows headerDate rows =>
    if !hasLawRows then none
    else
      let law_data : NewTaipeiLawData :=
        { LawName := title, LastModified := headerDate,
          LawArticles := newTaipeiArticles rows, LawURL := [] }
      if law_data.LawArticles ≠ [] then some law_data else none

/-- `NewTaipeiLawCrawler.get_law_json law_info`, given the fetch outcomes of
the `FLAWDAT0202` and `FLAWDAT0201` URL formats for this `fcode`.  The used
URL (0202, or 0201 on fallback) is stamped into the record. -/
def newTaipeiGetLawJson (fetch0202 fetch0201 : NewTaipeiFetch)
    (title url0202 url0201 : List Char) : Option NewTaipeiLawData :=
  match tryGetContent fetch0202 title with
  | some content => some { content with LawURL := url0202 }
  | none =>
    match tryGetContent fetch0201 title with
    | some content => some { content with LawURL := url0201 }
    | none => none

/-- `NewTaipeiLawCrawler.process_law`: the `save_json` calls made and the
return value, given the two fetch outcomes. -/
def newTaipeiProcessLaw (fetch0202 fetch0201 : NewTaipeiFetch)
    (title url0202 url0201 : List Char) :
    List (NewTaipeiLawData × List Char) × Bool :=
  match newTaipeiGetLawJson fetch0202 fetch0201 title url0202 url0201 with
  | some d => if d.LawName ≠ [] then ([(d, d.LawName ++ ".json".data)], true)
              else ([], false)
  | none => ([], false)

/-- C10: for the New Taipei source, `try_get_content` never returns a record
with an empty `LawArticles` list; `get_law_json` uses the `FLAWDAT0202` result
when it yielded content and falls back to `FLAWDAT0201` exactly when it did
not; consequently every record `process_law` saves carries a non-empty
`LawArticles` sequence. -/
theorem new_taipei_saved_records_have_articles
    (fetch0202 fetch0201 : NewTaipeiFetch) (title url0202 url0201 : List Char) :
    (∀ d, tryGetContent fetch0202 title = some d → d.LawArticles ≠ []) ∧
      (∀ d, tryGetContent fetch0202 title = some d →
        newTaipeiGetLawJson fetch0202 fetch0201 title url0202 url0201 =
          some { d with LawURL := url0202 }) ∧
      (tryGetContent fetch0202 title = none →
        newTaipeiGetLawJson fetch0202 fetch0201 title url0202 url0201 =
          (tryGetContent fetch0201 title).map
            (fun d => { d with LawURL := url0201 })) ∧
      (∀ d fname,
        (d, fname) ∈
          (newTaipeiProcessLaw fetch0202 fetch0201 title url0202 url0201).1 →
        d.LawArticles ≠ []) := by
  have harts : ∀ fetch d, tryGetContent fetch title = some d →
      d.LawArticles ≠ [] := by
    intro fetch d hd
    cases fetch with
    | raised => exact absurd hd (by simp [tryGetContent])
    | page hasLawRows headerDate rows =>
      by_cases hrows : hasLawRows
      · simp only [tryGetContent, hrows, Bool.not_true, Bool.false_eq_true,
          if_false, ne_eq, ite_not] at hd
        by_cases harticles : newTaipeiArticles rows = []
        · simp [harticles] at hd
        · simp [harticles] at hd
          rw [← hd]
          exact harticles
      · simp only [Bool.not_eq_true] at hrows
        simp [tryGetContent, hrows] at hd
  refine ⟨harts fetch0202, ?_, ?_, ?_⟩
  · intro d hd
    simp [newTaipeiGetLawJson, hd]
  · intro h
    cases h1 : tryGetContent fetch0201 title with
    | none => simp [newTaipeiGetLawJson, h, h1]
    | some d => simp [newTaipeiGetLawJson, h, h1]
  · intro d fname hmem
    unfold newTaipeiProcessLaw at hmem
    cases hj : newTaipeiGetLawJson fetch0202 fetch0201 title url0202 url0201 with
    | none => simp [hj] at hmem
    | some d0 =>
      rw [hj] at hmem
      by_cases hname : d0.LawName = []
      · simp [hname] at hmem
      · simp [hname] at hmem
        obtain ⟨hd, _⟩ := hmem
        subst hd
        unfold newTaipeiGetLawJson at hj
        cases h2 : tryGetContent fetch0202 title with
        | some c =>
          rw [h2] at hj
          simp only [Option.some.injEq] at hj
          have := harts fetch0202 c h2
          rw [← hj]
          simpa using this
        | none =>
          rw [h2] at hj
          cases h1 : tryGetContent fetch0201 title with
          | none => rw [h1] at hj; exact absurd hj (by simp)
          | some c =>
            rw [h1] at hj
            simp only [Option.some.injEq] at hj
            have := harts fetch0201 c h1
            rw [← hj]
            simpa using this

/-- A fetch whose 0202 page has law rows, one of them complete. -/
def sampleFetch0202 : NewTaipeiFetch :=
  .page true "1120801".data [⟨some "第一條".data, some "本文".data⟩]

theorem new_taipei_saved_records_have_articles_witness :
    (tryGetContent sampleFetch0202 "條例".data).elim True
        (fun d => d.LawArticles ≠ []) ∧
      newTaipeiGetLawJson sampleFetch0202 .raised "條例".data "u2".data
          "u1".data =
        some { LawName := "條例".data, LastModified := "1120801".data,
               LawArticles := [("第一條".data, "本文".data)],
               LawURL := "u2".data } := by
  obtain ⟨h1, h2, _, _⟩ := new_taipei_saved_records_have_articles
    sampleFetch0202 .raised "條例".data "u2".data "u1".data
  constructor
  · cases hd : tryGetContent sampleFetch0202 "條例".data with
    | none => exact trivial
    | some d => exact h1 d hd
  · exact h2 _ rfl

/-! ## Persistence sink (`BaseLawCrawler.save_json`)

`save_json(data, filename)` runs `os.makedirs(output_dir, exist_ok=True)`,
then writes `json.dump(data, f, ensure_ascii=False, indent=2)` to
`os.path.join(output_dir, filename)` opened in mode `'w'` with UTF-8 encoding.

The document model `Json` covers the values the crawlers persist (strings,
arrays, objects, booleans, null; the records contain no numbers).  `serVal`
transcribes CPython's `json.dump` output with `indent=2` and
`ensure_ascii=False`: `"` , `\` and control characters are escaped (short
escapes for `\b \t \n \f \r`, lowercase `\uXXXX` otherwise), all other
characters — in particular every non-ASCII character — are written literally;
nested containers indent by two spaces per level with `','` item and `': '`
key separators, and empty containers print as `[]` / `{}`.  `parseJson`
models `json.load`: a recursive-descent reader that skips JSON whitespace
between tokens. -/

/-- The JSON documents the crawlers persist. -/
inductive Json where
  | null
  | bool (b : Bool)
  | str (s : List Char)
  | arr (xs : List Json)
  | obj (kvs : List (List Char × Json))

/-- Lowercase hexadecimal digit, as produced by CPython's `\uXXXX` escape. -/
def hexDigit (d : ℕ) : Char :=
  if d < 10 then Char.ofNat (48 + d) else Char.ofNat (87 + d)

/-- Four-digit lowercase hex rendering of `n < 0x10000`. -/
def hex4 (n : ℕ) : List Char :=
  [hexDigit (n / 4096 % 16), hexDigit (n / 256 % 16),
   hexDigit (n / 16 % 16), hexDigit (n % 16)]

/-- CPython's JSON string-character encoder with `ensure_ascii=False`:
escape `"` and `\`, short-escape the named control characters, `\uXXXX` the
remaining control characters, and pass every other character through
literally. -/
def escChar (c : Char) : List Char :=
  if c = '"' then ['\\', '"']
  else if c = '\\' then ['\\', '\\']
  else if c = '\n' then ['\\', 'n']
  else if c = '\r' then ['\\', 'r']
  else if c = '\t' then ['\\', 't']
  else if c = '\x08' then ['\\', 'b']
  else if c = '\x0c' then ['\\', 'f']
  else if c.toNat < 0x20 then '\\' :: 'u' :: hex4 c.toNat
  else [c]

/-- A serialized JSON string: `"`, the escaped characters, `"`. -/
def serStr (s : List Char) : List Char :=
  '"' :: s.flatMap escChar ++ ['"']

/-- The newline-plus-indent separator at nesting depth `lvl` produced by
`indent=2`. -/
def nlIndent (lvl : ℕ) : List Char :=
  '\n' :: List.replicate (2 * lvl) ' '

mutual

/-- `json.dump(·, indent=2, ensure_ascii=False)` at nesting depth `lvl`. -/
def serVal (lvl : ℕ) : Json → List Char
  | .null => "null".data
  | .bool true => "true".data
  | .bool false => "false".data
  | .str s => serStr s
  | .arr [] => ['[', ']']
  | .arr (x :: xs) =>
    '[' :: (nlIndent (lvl + 1) ++ serVal (lvl + 1) x ++
      serItemsTail (lvl + 1) xs ++ nlIndent lvl ++ [']'])
  | .obj [] => ['{', '}']
  | .obj ((k, v) :: kvs) =>
    '{' :: (nlIndent (lvl + 1) ++ serStr k ++ ':' :: ' ' ::
      serVal (lvl + 1) v ++ serPairsTail (lvl + 1) kvs ++ nlIndent lvl ++ ['}'])

/-- The `,`-separated remaining array elements. -/
def serItemsTail (lvl : ℕ) : List Json → List Char
  | [] => []
  | y :: ys => ',' :: (nlIndent lvl ++ serVal lvl y ++ serItemsTail lvl ys)

/-- The `,`-separated remaining object members. -/
def serPairsTail (lvl : ℕ) : List (List Char × Json) → List Char
  | [] => []
  | (k, v) :: ps => ',' :: (nlIndent lvl ++ serStr k ++ ':' :: ' ' ::
      serVal lvl v ++ serPairsTail lvl ps)

end

/-- The serialized document text `save_json` writes. -/
def serialize (j : Json) : List Char := serVal 0 j

/-- JSON inter-token whitespace. -/
def isJsonWs (c : Char) : Bool :=
  c = ' ' || c = '\t' || c = '\n' || c = '\r'

/-- Skip inter-token whitespace. -/
def skipWs (s : List Char) : List Char := s.dropWhile isJsonWs

/-- Value of one hexadecimal digit. -/
def hexVal (c : Char) : Option ℕ :=
  if 48 ≤ c.toNat ∧ c.toNat ≤ 57 then some (c.toNat - 48)
  else if 97 ≤ c.toNat ∧ c.toNat ≤ 102 then some (c.toNat - 87)
  else if 65 ≤ c.toNat ∧ c.toNat ≤ 70 then some (c.toNat - 55)
  else none

/-- The named JSON escape characters. -/
def unescChar (e : Char) : Option Char :=
  if e = '"' then some '"'
  else if e = '\\' then some '\\'
  else if e = '/' then some '/'
  else if e = 'b' then some '\x08'
  else if e = 'f' then some '\x0c'
  else if e = 'n' then some '\n'
  else if e = 'r' then some '\r'
  else if e = 't' then some '\t'
  else none

mutual

/-- Read a JSON string body up to and over its closing quote. -/
def parseStrBody : List Char → Option (List Char × List Char)
  | [] => none
  | c :: r =>
    if c = '"' then some ([], r)
    else if c = '\\' then parseEscBody r
    else (parseStrBody r).map (fun p => (c :: p.1, p.2))
  termination_by s => s.length

/-- Read the character after a backslash in a JSON string body. -/
def parseEscBody : List Char → Option (List Char × List Char)
  | [] => none
  | e :: r2 =>
    if e = 'u' then parseHexBody r2
    else
      match unescChar e with
      | some u => (parseStrBody r2).map (fun p => (u :: p.1, p.2))
      | none => none
  termination_by s => s.length

/-- Read the four hex digits of a `\uXXXX` escape in a JSON string body. -/
def parseHexBody : List Char → Option (List Char × List Char)
  | a :: b :: c2 :: d :: r3 =>
    (match hexVal a, hexVal b, hexVal c2, hexVal d with
     | some ha, some hb, some hc, some hd =>
       (parseStrBody r3).map (fun p =>
         (Char.ofNat (ha * 4096 + hb * 256 + hc * 16 + hd) :: p.1, p.2))
     | _, _, _, _ => none)
  | _ => none
  termination_by s => s.length

end

mutual

/-- Read one JSON value (fuel-bounded recursive descent). -/
def parseVal : ℕ → List Char → Option (Json × List Char)
  | 0, _ => none
  | f + 1, s =>
    match skipWs s with
    | 'n' :: 'u' :: 'l' :: 'l' :: r => some (.null, r)
    | 't' :: 'r' :: 'u' :: 'e' :: r => some (.bool true, r)
    | 'f' :: 'a' :: 'l' :: 's' :: 'e' :: r => some (.bool false, r)
    | '"' :: r => (parseStrBody r).map (fun p => (.str p.1, p.2))
    | '[' :: r =>
      let r2 := skipWs r
      if r2.head? = some ']' then some (.arr [], r2.tail)
      else (parseItems f r2).map (fun p => (.arr p.1, p.2))
    | '{' :: r =>
      let r2 := skipWs r
      if r2.head? = some '}' then some (.obj [], r2.tail)
      else (parsePairs f r2).map (fun p => (.obj p.1, p.2))
    | _ => none

/-- Read the elements of a non-empty JSON array, over the closing `]`. -/
def parseItems : ℕ → List Char → Option (List Json × List Char)
  | 0, _ => none
  | f + 1, s =>
    match parseVal f s with
    | none => none
    | some (v, r) =>
      match skipWs r with
      | ',' :: r2 => (parseItems f r2).map (fun p => (v :: p.1, p.2))
      | ']' :: r2 => some ([v], r2)
      | _ => none

/-- Read the members of a non-empty JSON object, over the closing brace. -/
def parsePairs : ℕ → List Char → Option (List (List Char × Json) × List Char)
  | 0, _ => none
  | f + 1, s =>
    match skipWs s with
    | '"' :: r =>
      match parseStrBody r with
      | none => none
      | some (k, r1) =>
        match skipWs r1 with
        | ':' :: r2 =>
          match parseVal f r2 with
          | none => none
          | some (v, r3) =>
            match skipWs r3 with
            | ',' :: r4 => (parsePairs f r4).map (fun p => ((k, v) :: p.1, p.2))
            | '}' :: r4 => some ([(k, v)], r4)
            | _ => none
        | _ => none
    | _ => none

end

/-- `json.load` over the file text: parse one document and require only
whitespace after it. -/
def parseJson (s : List Char) : Option Json :=
  match parseVal (s.length + 1) s with
  | some (j, rest) => if skipWs rest = [] then some j else none
  | none => none


theorem hexVal_hexDigit (d : ℕ) (h : d < 16) : hexVal (hexDigit d) = some d := by
  interval_cases d <;> decide

theorem parseStrBody_quote (r : List Char) :
    parseStrBody ('"' :: r) = some ([], r) := by
  simp [parseStrBody]

theorem parseStrBody_lit (c : Char) (r : List Char) (h1 : c ≠ '"')
    (h2 : c ≠ '\\') :
    parseStrBody (c :: r) = (parseStrBody r).map (fun p => (c :: p.1, p.2)) := by
  rw [parseStrBody, if_neg h1, if_neg h2]

theorem parseStrBody_esc_named (e u : Char) (r : List Char)
    (he : unescChar e = some u) (hne : e ≠ 'u') :
    parseStrBody ('\\' :: e :: r) =
      (parseStrBody r).map (fun p => (u :: p.1, p.2)) := by
  rw [parseStrBody, if_neg (by decide), if_pos rfl, parseEscBody,
    if_neg hne, he]

theorem parseStrBody_esc_u (a b c d : Char) (r : List Char)
    (va vb vc vd : ℕ) (ha : hexVal a = some va) (hb : hexVal b = some vb)
    (hc : hexVal c = some vc) (hd : hexVal d = some vd) :
    parseStrBody ('\\' :: 'u' :: a :: b :: c :: d :: r) =
      (parseStrBody r).map (fun p =>
        (Char.ofNat (va * 4096 + vb * 256 + vc * 16 + vd) :: p.1, p.2)) := by
  rw [parseStrBody, if_neg (by decide), if_pos rfl, parseEscBody,
    if_pos rfl, parseHexBody, ha, hb, hc, hd]

theorem parseStrBody_escape (s : List Char) :
    ∀ rest : List Char,
      parseStrBody (s.flatMap escChar ++ '"' :: rest) = some (s, rest) := by
  induction s with
  | nil =>
    intro rest
    rw [List.flatMap_nil, List.nil_append, parseStrBody_quote]
  | cons c s ih =>
    intro rest
    rw [List.flatMap_cons, List.append_assoc]
    by_cases h1 : c = '"'
    · subst h1
      rw [show escChar '"' = ['\\', '"'] by decide, List.cons_append,
        List.cons_append, List.nil_append,
        parseStrBody_esc_named '"' '"' _ (by decide) (by decide), ih]
      rfl
    by_cases h2 : c = '\\'
    · subst h2
      rw [show escChar '\\' = ['\\', '\\'] by decide, List.cons_append,
        List.cons_append, List.nil_append,
        parseStrBody_esc_named '\\' '\\' _ (by decide) (by decide), ih]
      rfl
    by_cases h3 : c = '\n'
    · subst h3
      rw [show escChar '\n' = ['\\', 'n'] by decide, List.cons_append,
        List.cons_append, List.nil_append,
        parseStrBody_esc_named 'n' '\n' _ (by decide) (by decide), ih]
      rfl
    by_cases h4 : c = '\r'
    · subst h4
      rw [show escChar '\r' = ['\\', 'r'] by decide, List.cons_append,
        List.cons_append, List.nil_append,
        parseStrBody_esc_named 'r' '\r' _ (by decide) (by decide), ih]
      rfl
    by_cases h5 : c = '\t'
    · subst h5
      rw [show escChar '\t' = ['\\', 't'] by decide, List.cons_append,
        List.cons_append, List.nil_append,
        parseStrBody_esc_named 't' '\t' _ (by decide) (by decide), ih]
      rfl
    by_cases h6 : c = '\x08'
    · subst h6
      rw [show escChar '\x08' = ['\\', 'b'] by decide, List.cons_append,
        List.cons_append, List.nil_append,
        parseStrBody_esc_named 'b' '\x08' _ (by decide) (by decide), ih]
      rfl
    by_cases h7 : c = '\x0c'
    · subst h7
      rw [show escChar '\x0c' = ['\\', 'f'] by decide, List.cons_append,
        List.cons_append, List.nil_append,
        parseStrBody_esc_named 'f' '\x0c' _ (by decide) (by decide), ih]
      rfl
    by_cases h8 : c.toNat < 0x20
    · have hesc : escChar c = '\\' :: 'u' :: hex4 c.toNat := by
        unfold escChar
        rw [if_neg h1, if_neg h2, if_neg h3, if_neg h4, if_neg h5, if_neg h6,
          if_neg h7, if_pos h8]
      have ha : hexVal (hexDigit (c.toNat / 4096 % 16)) =
          some (c.toNat / 4096 % 16) := hexVal_hexDigit _ (by omega)
      have hb : hexVal (hexDigit (c.toNat / 256 % 16)) =
          some (c.toNat / 256 % 16) := hexVal_hexDigit _ (by omega)
      have hc : hexVal (hexDigit (c.toNat / 16 % 16)) =
          some (c.toNat / 16 % 16) := hexVal_hexDigit _ (by omega)
      have hd : hexVal (hexDigit (c.toNat % 16)) =
          some (c.toNat % 16) := hexVal_hexDigit _ (by omega)
      have hsum : c.toNat / 4096 % 16 * 4096 + c.toNat / 256 % 16 * 256 +
          c.toNat / 16 % 16 * 16 + c.toNat % 16 = c.toNat := by omega
      rw [hesc]
      simp only [hex4, List.cons_append, List.nil_append]
      rw [parseStrBody_esc_u _ _ _ _ _ _ _ _ _ ha hb hc hd, ih, hsum,
        Char.ofNat_toNat]
      rfl
    · have hesc : escChar c = [c] := by
        unfold escChar
        rw [if_neg h1, if_neg h2, if_neg h3, if_neg h4, if_neg h5, if_neg h6,
          if_neg h7, if_neg h8]
      rw [hesc, List.cons_append, List.nil_append,
        parseStrBody_lit c _ h1 h2, ih]
      rfl

theorem skipWs_ws_append (pre : List Char)
    (hpre : ∀ c ∈ pre, isJsonWs c = true) (s : List Char) :
    skipWs (pre ++ s) = skipWs s := by
  induction pre with
  | nil => rw [List.nil_append]
  | cons c cs ih =>
    rw [List.cons_append]
    unfold skipWs
    rw [List.dropWhile_cons, if_pos (hpre c (by simp))]
    exact ih (fun d hd => hpre d (by simp [hd]))

theorem skipWs_cons_not_ws {c : Char} (h : isJsonWs c = false)
    (s : List Char) : skipWs (c :: s) = c :: s := by
  unfold skipWs
  rw [List.dropWhile_cons, if_neg (by simp [h])]

theorem nlIndent_ws (k : ℕ) : ∀ c ∈ nlIndent k, isJsonWs c = true := by
  intro c hc
  unfold nlIndent at hc
  rcases List.mem_cons.mp hc with h | h
  · subst h; rfl
  · rw [List.eq_of_mem_replicate h]; rfl

theorem skipWs_nlIndent (k : ℕ) (s : List Char) :
    skipWs (nlIndent k ++ s) = skipWs s :=
  skipWs_ws_append _ (nlIndent_ws k) s

/-- The serialized form of any value starts with a non-whitespace character
that is neither `]` nor `}`. -/
theorem serVal_head (lvl : ℕ) (j : Json) :
    ∃ c t, serVal lvl j = c :: t ∧ isJsonWs c = false ∧
      c ≠ ']' ∧ c ≠ '}' := by
  have hok : ∀ c : Char, c ∈ (['n', 't', 'f', '"', '[', '{'] : List Char) →
      isJsonWs c = false ∧ c ≠ ']' ∧ c ≠ '}' := by decide
  cases j with
  | null => exact ⟨_, _, rfl, hok 'n' (by decide)⟩
  | bool b =>
    cases b with
    | true => exact ⟨_, _, rfl, hok 't' (by decide)⟩
    | false => exact ⟨_, _, rfl, hok 'f' (by decide)⟩
  | str s => exact ⟨_, _, rfl, hok '"' (by decide)⟩
  | arr xs =>
    cases xs with
    | nil => exact ⟨_, _, rfl, hok '[' (by decide)⟩
    | cons x xs => exact ⟨_, _, rfl, hok '[' (by decide)⟩
  | obj kvs =>
    cases kvs with
    | nil => exact ⟨_, _, rfl, hok '{' (by decide)⟩
    | cons kv kvs =>
      obtain ⟨k, v⟩ := kv
      exact ⟨_, _, rfl, hok '{' (by decide)⟩

theorem skipWs_serVal (lvl : ℕ) (j : Json) (u : List Char) :
    skipWs (serVal lvl j ++ u) = serVal lvl j ++ u := by
  obtain ⟨c, t, hct, hws, _, _⟩ := serVal_head lvl j
  rw [hct, List.cons_append, skipWs_cons_not_ws hws]

mutual

/-- Parser fuel sufficient for one serialized value. -/
def fuelJ : Json → ℕ
  | .null => 1
  | .bool _ => 1
  | .str _ => 1
  | .arr xs => 1 + fuelItems xs
  | .obj kvs => 1 + fuelPairs kvs

/-- Parser fuel sufficient for serialized array elements. -/
def fuelItems : List Json → ℕ
  | [] => 0
  | v :: vs => 1 + max (fuelJ v) (fuelItems vs)

/-- Parser fuel sufficient for serialized object members. -/
def fuelPairs : List (List Char × Json) → ℕ
  | [] => 0
  | (_, v) :: ps => 1 + max (fuelJ v) (fuelPairs ps)

end

theorem fuelJ_pos (j : Json) : 1 ≤ fuelJ j := by
  cases j <;> simp [fuelJ]

theorem parseVal_red_null (f : ℕ) (s r : List Char)
    (h : skipWs s = 'n' :: 'u' :: 'l' :: 'l' :: r) :
    parseVal (f + 1) s = some (.null, r) := by
  simp only [parseVal, h]

theorem parseVal_red_true (f : ℕ) (s r : List Char)
    (h : skipWs s = 't' :: 'r' :: 'u' :: 'e' :: r) :
    parseVal (f + 1) s = some (.bool true, r) := by
  simp only [parseVal, h]

theorem parseVal_red_false (f : ℕ) (s r : List Char)
    (h : skipWs s = 'f' :: 'a' :: 'l' :: 's' :: 'e' :: r) :
    parseVal (f + 1) s = some (.bool false, r) := by
  simp only [parseVal, h]

theorem parseVal_red_quote (f : ℕ) (s r : List Char)
    (h : skipWs s = '"' :: r) :
    parseVal (f + 1) s =
      (parseStrBody r).map (fun p => (.str p.1, p.2)) := by
  simp only [parseVal, h]

theorem parseVal_red_lbracket (f : ℕ) (s r : List Char)
    (h : skipWs s = '[' :: r) :
    parseVal (f + 1) s =
      (if (skipWs r).head? = some ']' then some (.arr [], (skipWs r).tail)
       else (parseItems f (skipWs r)).map (fun p => (.arr p.1, p.2))) := by
  simp only [parseVal, h]

theorem parseVal_red_lbrace (f : ℕ) (s r : List Char)
    (h : skipWs s = '{' :: r) :
    parseVal (f + 1) s =
      (if (skipWs r).head? = some '}' then some (.obj [], (skipWs r).tail)
       else (parsePairs f (skipWs r)).map (fun p => (.obj p.1, p.2))) := by
  simp only [parseVal, h]

theorem parseItems_red_comma (f : ℕ) (s r r2 : List Char) (v : Json)
    (hv : parseVal f s = some (v, r)) (hr : skipWs r = ',' :: r2) :
    parseItems (f + 1) s =
      (parseItems f r2).map (fun p => (v :: p.1, p.2)) := by
  simp only [parseItems, hv, hr]

theorem parseItems_red_close (f : ℕ) (s r r2 : List Char) (v : Json)
    (hv : parseVal f s = some (v, r)) (hr : skipWs r = ']' :: r2) :
    parseItems (f + 1) s = some ([v], r2) := by
  simp only [parseItems, hv, hr]

theorem parsePairs_red_comma (f : ℕ) (s r r1 r2 r3 r4 k : List Char)
    (v : Json) (hs : skipWs s = '"' :: r)
    (hk : parseStrBody r = some (k, r1)) (hc : skipWs r1 = ':' :: r2)
    (hv : parseVal f r2 = some (v, r3)) (he : skipWs r3 = ',' :: r4) :
    parsePairs (f + 1) s =
      (parsePairs f r4).map (fun p => ((k, v) :: p.1, p.2)) := by
  simp only [parsePairs, hs, hk, hc, hv, he]

theorem parsePairs_red_close (f : ℕ) (s r r1 r2 r3 r4 k : List Char)
    (v : Json) (hs : skipWs s = '"' :: r)
    (hk : parseStrBody r = some (k, r1)) (hc : skipWs r1 = ':' :: r2)
    (hv : parseVal f r2 = some (v, r3)) (he : skipWs r3 = '}' :: r4) :
    parsePairs (f + 1) s = some ([(k, v)], r4) := by
  simp only [parsePairs, hs, hk, hc, hv, he]

/-- Leading whitespace does not change a value parse. -/
theorem parseVal_ws (f : ℕ) (pre s : List Char)
    (hpre : ∀ c ∈ pre, isJsonWs c = true) :
    parseVal f (pre ++ s) = parseVal f s := by
  cases f with
  | zero => rfl
  | succ f => simp only [parseVal, skipWs_ws_append pre hpre s]

theorem serStr_shape (k u : List Char) :
    serStr k ++ u = '"' :: (k.flatMap escChar ++ ('"' :: u)) := by
  simp [serStr]

theorem skipWs_serStr (k : List Char) (u : List Char) :
    skipWs (serStr k ++ u) = serStr k ++ u := by
  rw [serStr_shape, skipWs_cons_not_ws (by decide), ← serStr_shape]

theorem serVal_arr_cons_shape (lvl : ℕ) (x : Json) (xs : List Json)
    (rest : List Char) :
    serVal lvl (.arr (x :: xs)) ++ rest =
      '[' :: (nlIndent (lvl + 1) ++ (serVal (lvl + 1) x ++
        (serItemsTail (lvl + 1) xs ++ (nlIndent lvl ++ ']' :: rest)))) := by
  simp [serVal, List.append_assoc]

theorem serVal_obj_cons_shape (lvl : ℕ) (k : List Char) (v : Json)
    (ps : List (List Char × Json)) (rest : List Char) :
    serVal lvl (.obj ((k, v) :: ps)) ++ rest =
      '{' :: (nlIndent (lvl + 1) ++ (serStr k ++ (':' :: ' ' ::
        (serVal (lvl + 1) v ++ (serPairsTail (lvl + 1) ps ++
          (nlIndent lvl ++ '}' :: rest)))))) := by
  simp [serVal, List.append_assoc]

theorem serItemsTail_cons_shape (lvl : ℕ) (y : Json) (ys : List Json)
    (u : List Char) :
    serItemsTail lvl (y :: ys) ++ u =
      ',' :: (nlIndent lvl ++ (serVal lvl y ++ (serItemsTail lvl ys ++ u))) := by
  simp [serItemsTail, List.append_assoc]

theorem serPairsTail_cons_shape (lvl : ℕ) (k : List Char) (v : Json)
    (ps : List (List Char × Json)) (u : List Char) :
    serPairsTail lvl ((k, v) :: ps) ++ u =
      ',' :: (nlIndent lvl ++ (serStr k ++ (':' :: ' ' ::
        (serVal lvl v ++ (serPairsTail lvl ps ++ u))))) := by
  simp [serPairsTail, List.append_assoc]

theorem parse_serVal_aux : ∀ f : ℕ,
    (∀ (j : Json) (lvl : ℕ) (rest : List Char), fuelJ j ≤ f →
      parseVal f (serVal lvl j ++ rest) = some (j, rest)) ∧
    (∀ (x : Json) (xs : List Json) (lvlI lvlO : ℕ) (pre rest : List Char),
      (∀ c ∈ pre, isJsonWs c = true) → fuelItems (x :: xs) ≤ f →
      parseItems f (pre ++ (serVal lvlI x ++ (serItemsTail lvlI xs ++
        (nlIndent lvlO ++ ']' :: rest)))) = some (x :: xs, rest)) ∧
    (∀ (k : List Char) (v : Json) (ps : List (List Char × Json))
      (lvlI lvlO : ℕ) (pre rest : List Char),
      (∀ c ∈ pre, isJsonWs c = true) → fuelPairs ((k, v) :: ps) ≤ f →
      parsePairs f (pre ++ (serStr k ++ (':' :: ' ' :: (serVal lvlI v ++
        (serPairsTail lvlI ps ++ (nlIndent lvlO ++ '}' :: rest)))))) =
        some ((k, v) :: ps, rest)) := by
  intro f
  induction f with
  | zero =>
    refine ⟨?_, ?_, ?_⟩
    · intro j lvl rest hf
      have := fuelJ_pos j
      omega
    · intro x xs lvlI lvlO pre rest hpre hf
      have : fuelItems (x :: xs) = 1 + max (fuelJ x) (fuelItems xs) := by
        simp [fuelItems]
      omega
    · intro k v ps lvlI lvlO pre rest hpre hf
      have : fuelPairs ((k, v) :: ps) = 1 + max (fuelJ v) (fuelPairs ps) := by
        simp [fuelPairs]
      omega
  | succ f ih =>
    obtain ⟨ihV, ihI, ihP⟩ := ih
    refine ⟨?_, ?_, ?_⟩
    · intro j lvl rest hf
      cases j with
      | null =>
        apply parseVal_red_null
        have hshape : serVal lvl Json.null ++ rest =
            'n' :: 'u' :: 'l' :: 'l' :: rest := by simp [serVal]
        rw [hshape]
        exact skipWs_cons_not_ws (by decide) _
      | bool b =>
        cases b with
        | true =>
          apply parseVal_red_true
          have hshape : serVal lvl (Json.bool true) ++ rest =
              't' :: 'r' :: 'u' :: 'e' :: rest := by simp [serVal]
          rw [hshape]
          exact skipWs_cons_not_ws (by decide) _
        | false =>
          apply parseVal_red_false
          have hshape : serVal lvl (Json.bool false) ++ rest =
              'f' :: 'a' :: 'l' :: 's' :: 'e' :: rest := by simp [serVal]
          rw [hshape]
          exact skipWs_cons_not_ws (by decide) _
      | str s =>
        have hs : skipWs (serVal lvl (Json.str s) ++ rest) =
            '"' :: (s.flatMap escChar ++ ('"' :: rest)) := by
          have hshape : serVal lvl (Json.str s) ++ rest =
              '"' :: (s.flatMap escChar ++ ('"' :: rest)) := by
            rw [show serVal lvl (Json.str s) = serStr s by simp [serVal],
              serStr_shape]
          rw [hshape]
          exact skipWs_cons_not_ws (by decide) _
        rw [parseVal_red_quote f _ _ hs, parseStrBody_escape]
        rfl
      | arr xs =>
        cases xs with
        | nil =>
          have hs : skipWs (serVal lvl (Json.arr []) ++ rest) =
              '[' :: (']' :: rest) := by
            have hshape : serVal lvl (Json.arr []) ++ rest =
                '[' :: (']' :: rest) := by simp [serVal]
            rw [hshape]
            exact skipWs_cons_not_ws (by decide) _
          rw [parseVal_red_lbracket f _ _ hs,
            skipWs_cons_not_ws (by decide : isJsonWs ']' = false)]
          simp
        | cons x xs =>
          have hfx : fuelItems (x :: xs) ≤ f := by
            have : fuelJ (Json.arr (x :: xs)) = 1 + fuelItems (x :: xs) := by
              simp [fuelJ]
            omega
          have hs : skipWs (serVal lvl (Json.arr (x :: xs)) ++ rest) =
              '[' :: (nlIndent (lvl + 1) ++ (serVal (lvl + 1) x ++
                (serItemsTail (lvl + 1) xs ++ (nlIndent lvl ++
                  ']' :: rest)))) := by
            rw [serVal_arr_cons_shape]
            exact skipWs_cons_not_ws (by decide) _
          rw [parseVal_red_lbracket f _ _ hs]
          have hR : skipWs (nlIndent (lvl + 1) ++ (serVal (lvl + 1) x ++
              (serItemsTail (lvl + 1) xs ++ (nlIndent lvl ++ ']' :: rest)))) =
              serVal (lvl + 1) x ++ (serItemsTail (lvl + 1) xs ++
                (nlIndent lvl ++ ']' :: rest)) := by
            rw [skipWs_nlIndent]
            exact skipWs_serVal _ _ _
          rw [hR]
          obtain ⟨c, t, hct, _, hcne, _⟩ := serVal_head (lvl + 1) x
          rw [hct, List.cons_append, if_neg (by simp [hcne]),
            ← List.cons_append, ← hct]
          have happ := ihI x xs (lvl + 1) lvl [] rest
            (by intro c hc; simp at hc) hfx
          rw [List.nil_append] at happ
          rw [happ]
          rfl
      | obj kvs =>
        cases kvs with
        | nil =>
          have hs : skipWs (serVal lvl (Json.obj []) ++ rest) =
              '{' :: ('}' :: rest) := by
            have hshape : serVal lvl (Json.obj []) ++ rest =
                '{' :: ('}' :: rest) := by simp [serVal]
            rw [hshape]
            exact skipWs_cons_not_ws (by decide) _
          rw [parseVal_red_lbrace f _ _ hs,
            skipWs_cons_not_ws (by decide : isJsonWs '}' = false)]
          simp
        | cons kv ps =>
          obtain ⟨k, v⟩ := kv
          have hfp : fuelPairs ((k, v) :: ps) ≤ f := by
            have : fuelJ (Json.obj ((k, v) :: ps)) =
                1 + fuelPairs ((k, v) :: ps) := by simp [fuelJ]
            omega
          have hs : skipWs (serVal lvl (Json.obj ((k, v) :: ps)) ++ rest) =
              '{' :: (nlIndent (lvl + 1) ++ (serStr k ++ (':' :: ' ' ::
                (serVal (lvl + 1) v ++ (serPairsTail (lvl + 1) ps ++
                  (nlIndent lvl ++ '}' :: rest)))))) := by
            rw [serVal_obj_cons_shape]
            exact skipWs_cons_not_ws (by decide) _
          rw [parseVal_red_lbrace f _ _ hs]
          have hR : skipWs (nlIndent (lvl + 1) ++ (serStr k ++ (':' :: ' ' ::
              (serVal (lvl + 1) v ++ (serPairsTail (lvl + 1) ps ++
                (nlIndent lvl ++ '}' :: rest)))))) =
              serStr k ++ (':' :: ' ' :: (serVal (lvl + 1) v ++
                (serPairsTail (lvl + 1) ps ++
                  (nlIndent lvl ++ '}' :: rest)))) := by
            rw [skipWs_nlIndent]
            exact skipWs_serStr _ _
          rw [hR, serStr_shape, if_neg (by simp), ← serStr_shape]
          have happ := ihP k v ps (lvl + 1) lvl [] rest
            (by intro c hc; simp at hc) hfp
          rw [List.nil_append] at happ
          rw [happ]
          rfl
    · intro x xs lvlI lvlO pre rest hpre hfu
      have hfx : fuelJ x ≤ f := by
        have : fuelItems (x :: xs) = 1 + max (fuelJ x) (fuelItems xs) := by
          simp [fuelItems]
        omega
      have hv : parseVal f (pre ++ (serVal lvlI x ++ (serItemsTail lvlI xs ++
          (nlIndent lvlO ++ ']' :: rest)))) =
          some (x, serItemsTail lvlI xs ++ (nlIndent lvlO ++ ']' :: rest)) := by
        rw [parseVal_ws f pre _ hpre]
        exact ihV x lvlI _ hfx
      cases xs with
      | nil =>
        have hr : skipWs (serItemsTail lvlI [] ++
            (nlIndent lvlO ++ ']' :: rest)) = ']' :: rest := by
          rw [show serItemsTail lvlI [] = [] by simp [serItemsTail],
            List.nil_append, skipWs_nlIndent]
          exact skipWs_cons_not_ws (by decide) _
        exact parseItems_red_close f _ _ _ x hv hr
      | cons y ys =>
        have hfys : fuelItems (y :: ys) ≤ f := by
          have : fuelItems (x :: y :: ys) =
              1 + max (fuelJ x) (fuelItems (y :: ys)) := by simp [fuelItems]
          omega
        have hr : skipWs (serItemsTail lvlI (y :: ys) ++
            (nlIndent lvlO ++ ']' :: rest)) =
            ',' :: (nlIndent lvlI ++ (serVal lvlI y ++ (serItemsTail lvlI ys ++
              (nlIndent lvlO ++ ']' :: rest)))) := by
          rw [serItemsTail_cons_shape]
          exact skipWs_cons_not_ws (by decide) _
        rw [parseItems_red_comma f _ _ _ x hv hr,
          ihI y ys lvlI lvlO (nlIndent lvlI) rest (nlIndent_ws _) hfys]
        rfl
    · intro k v ps lvlI lvlO pre rest hpre hfu
      have hfv : fuelJ v ≤ f := by
        have : fuelPairs ((k, v) :: ps) = 1 + max (fuelJ v) (fuelPairs ps) := by
          simp [fuelPairs]
        omega
      have hs : skipWs (pre ++ (serStr k ++ (':' :: ' ' :: (serVal lvlI v ++
          (serPairsTail lvlI ps ++ (nlIndent lvlO ++ '}' :: rest)))))) =
          '"' :: (k.flatMap escChar ++ ('"' :: (':' :: ' ' ::
            (serVal lvlI v ++ (serPairsTail lvlI ps ++
              (nlIndent lvlO ++ '}' :: rest)))))) := by
        rw [skipWs_ws_append pre hpre, serStr_shape]
        exact skipWs_cons_not_ws (by decide) _
      have hk := parseStrBody_escape k (':' :: ' ' :: (serVal lvlI v ++
        (serPairsTail lvlI ps ++ (nlIndent lvlO ++ '}' :: rest))))
      have hcl : skipWs (':' :: ' ' :: (serVal lvlI v ++
          (serPairsTail lvlI ps ++ (nlIndent lvlO ++ '}' :: rest)))) =
          ':' :: (' ' :: (serVal lvlI v ++ (serPairsTail lvlI ps ++
            (nlIndent lvlO ++ '}' :: rest)))) :=
        skipWs_cons_not_ws (by decide) _
      have hv2 : parseVal f (' ' :: (serVal lvlI v ++ (serPairsTail lvlI ps ++
          (nlIndent lvlO ++ '}' :: rest)))) =
          some (v, serPairsTail lvlI ps ++
            (nlIndent lvlO ++ '}' :: rest)) := by
        have hpre2 : ∀ c ∈ ([' '] : List Char), isJsonWs c = true := by decide
        rw [show (' ' :: (serVal lvlI v ++ (serPairsTail lvlI ps ++
          (nlIndent lvlO ++ '}' :: rest)))) = [' '] ++ (serVal lvlI v ++
          (serPairsTail lvlI ps ++ (nlIndent lvlO ++ '}' :: rest))) from rfl,
          parseVal_ws f [' '] _ hpre2]
        exact ihV v lvlI _ hfv
      cases ps with
      | nil =>
        have he : skipWs (serPairsTail lvlI [] ++
            (nlIndent lvlO ++ '}' :: rest)) = '}' :: rest := by
          rw [show serPairsTail lvlI [] = [] by simp [serPairsTail],
            List.nil_append, skipWs_nlIndent]
          exact skipWs_cons_not_ws (by decide) _
        exact parsePairs_red_close f _ _ _ _ _ _ _ v hs hk hcl hv2 he
      | cons p ps =>
        obtain ⟨k2, v2⟩ := p
        have hfp2 : fuelPairs ((k2, v2) :: ps) ≤ f := by
          have : fuelPairs ((k, v) :: (k2, v2) :: ps) =
              1 + max (fuelJ v) (fuelPairs ((k2, v2) :: ps)) := by
            simp [fuelPairs]
          omega
        have he : skipWs (serPairsTail lvlI ((k2, v2) :: ps) ++
            (nlIndent lvlO ++ '}' :: rest)) =
            ',' :: (nlIndent lvlI ++ (serStr k2 ++ (':' :: ' ' ::
              (serVal lvlI v2 ++ (serPairsTail lvlI ps ++
                (nlIndent lvlO ++ '}' :: rest)))))) := by
          rw [serPairsTail_cons_shape]
          exact skipWs_cons_not_ws (by decide) _
        rw [parsePairs_red_comma f _ _ _ _ _ _ _ v hs hk hcl hv2 he,
          ihP k2 v2 ps lvlI lvlO (nlIndent lvlI) rest (nlIndent_ws _) hfp2]
        rfl

theorem nlIndent_length (k : ℕ) : (nlIndent k).length = 2 * k + 1 := by
  simp [nlIndent]

mutual

theorem fuelJ_le_serVal_length (lvl : ℕ) (j : Json) :
    fuelJ j ≤ (serVal lvl j).length := by
  cases j with
  | null => simp [fuelJ, serVal]
  | bool b => cases b <;> simp [fuelJ, serVal]
  | str s => simp [fuelJ, serVal, serStr]
  | arr xs =>
    cases xs with
    | nil => simp [fuelJ, fuelItems, serVal]
    | cons x xs =>
      have h1 := fuelJ_le_serVal_length (lvl + 1) x
      have h2 := fuelItemsTail_le (lvl + 1) xs
      have e1 : fuelJ (Json.arr (x :: xs)) =
          1 + (1 + max (fuelJ x) (fuelItems xs)) := by simp [fuelJ, fuelItems]
      have e2 : (serVal lvl (Json.arr (x :: xs))).length =
          1 + ((nlIndent (lvl + 1)).length + ((serVal (lvl + 1) x).length +
            ((serItemsTail (lvl + 1) xs).length +
              ((nlIndent lvl).length + 1)))) := by
        simp [serVal]
        omega
      rw [e1, e2, nlIndent_length, nlIndent_length]
      omega
  | obj kvs =>
    cases kvs with
    | nil => simp [fuelJ, fuelPairs, serVal]
    | cons kv ps =>
      obtain ⟨k, v⟩ := kv
      have h1 := fuelJ_le_serVal_length (lvl + 1) v
      have h2 := fuelPairsTail_le (lvl + 1) ps
      have e1 : fuelJ (Json.obj ((k, v) :: ps)) =
          1 + (1 + max (fuelJ v) (fuelPairs ps)) := by simp [fuelJ, fuelPairs]
      have e2 : (serVal lvl (Json.obj ((k, v) :: ps))).length =
          1 + ((nlIndent (lvl + 1)).length + ((serStr k).length +
            (2 + ((serVal (lvl + 1) v).length +
              ((serPairsTail (lvl + 1) ps).length +
                ((nlIndent lvl).length + 1)))))) := by
        simp [serVal]
        omega
      rw [e1, e2, nlIndent_length, nlIndent_length]
      omega

theorem fuelItemsTail_le (lvl : ℕ) (xs : List Json) :
    fuelItems xs ≤ (serItemsTail lvl xs).length + 1 := by
  cases xs with
  | nil => simp [fuelItems]
  | cons y ys =>
    have h1 := fuelJ_le_serVal_length lvl y
    have h2 := fuelItemsTail_le lvl ys
    have e1 : fuelItems (y :: ys) = 1 + max (fuelJ y) (fuelItems ys) := by
      simp [fuelItems]
    have e2 : (serItemsTail lvl (y :: ys)).length =
        1 + ((nlIndent lvl).length + ((serVal lvl y).length +
          (serItemsTail lvl ys).length)) := by
      simp [serItemsTail]
      omega
    rw [e1, e2, nlIndent_length]
    omega

theorem fuelPairsTail_le (lvl : ℕ) (ps : List (List Char × Json)) :
    fuelPairs ps ≤ (serPairsTail lvl ps).length + 1 := by
  cases ps with
  | nil => simp [fuelPairs]
  | cons p ps =>
    obtain ⟨k, v⟩ := p
    have h1 := fuelJ_le_serVal_length lvl v
    have h2 := fuelPairsTail_le lvl ps
    have e1 : fuelPairs ((k, v) :: ps) = 1 + max (fuelJ v) (fuelPairs ps) := by
      simp [fuelPairs]
    have e2 : (serPairsTail lvl ((k, v) :: ps)).length =
        1 + ((nlIndent lvl).length + ((serStr k).length +
          (2 + ((serVal lvl v).length + (serPairsTail lvl ps).length)))) := by
      simp [serPairsTail]
      omega
    rw [e1, e2, nlIndent_length]
    omega

end

/-- Round trip: reading back what `json.dump` wrote recovers the document. -/
theorem parseJson_serialize (j : Json) : parseJson (serialize j) = some j := by
  have hfuel : fuelJ j ≤ (serVal 0 j).length + 1 :=
    le_trans (fuelJ_le_serVal_length 0 j) (Nat.le_succ _)
  have hmain := (parse_serVal_aux ((serVal 0 j).length + 1)).1 j 0 [] hfuel
  rw [List.append_nil] at hmain
  unfold parseJson serialize
  rw [hmain]
  rfl

/-- The filesystem state `save_json` touches: the set of existing directories
and the files (absolute path ↦ contents). -/
structure FileSystem where
  dirs : List (List Char)
  files : List (List Char × List Char)

/-- `os.path.join(output_dir, filename)`. -/
def pathJoin (dir name : List Char) : List Char := dir ++ '/' :: name

/-- `BaseLawCrawler.save_json(data, filename)`:
`os.makedirs(output_dir, exist_ok=True)` (create the directory when absent,
succeed silently when present), then write the serialized document to
`os.path.join(output_dir, filename)` in mode `'w'` — replacing whatever file
was at that path before. -/
def saveJson (fs : FileSystem) (outDir : List Char) (data : Json)
    (filename : List Char) : FileSystem :=
  { dirs := if outDir ∈ fs.dirs then fs.dirs else outDir :: fs.dirs,
    files := (pathJoin outDir filename, serialize data) ::
      fs.files.filter (fun e => decide (e.1 ≠ pathJoin outDir filename)) }

/-- Read a file's contents back from the filesystem. -/
def readFile (fs : FileSystem) (p : List Char) : Option (List Char) :=
  (fs.files.find? (fun e => decide (e.1 = p))).map (fun e => e.2)

/-- C4: `save_json` creates the output directory when absent and succeeds
idempotently when it exists; the written text parses back to a document
structurally equal to the record, for every record; every non-ASCII character
is written literally, never escaped; and a second `save_json` with the same
filename leaves exactly one file at that path, holding the second record's
serialized content (overwrite — no merge, no versioning). -/
theorem save_json_roundtrip_and_overwrite (fs : FileSystem)
    (outDir : List Char) (rec1 rec2 : Json) (fname : List Char) :
    outDir ∈ (saveJson fs outDir rec1 fname).dirs ∧
      (saveJson (saveJson fs outDir rec1 fname) outDir rec2 fname).dirs =
        (saveJson fs outDir rec1 fname).dirs ∧
      readFile (saveJson fs outDir rec1 fname) (pathJoin outDir fname) =
        some (serialize rec1) ∧
      parseJson (serialize rec1) = some rec1 ∧
      (∀ c : Char, 0x80 ≤ c.toNat → escChar c = [c]) ∧
      readFile (saveJson (saveJson fs outDir rec1 fname) outDir rec2 fname)
          (pathJoin outDir fname) = some (serialize rec2) ∧
      parseJson (serialize rec2) = some rec2 ∧
      ((saveJson (saveJson fs outDir rec1 fname) outDir rec2 fname).files.countP
        (fun e => decide (e.1 = pathJoin outDir fname))) = 1 := by
  have hdir1 : outDir ∈ (saveJson fs outDir rec1 fname).dirs := by
    unfold saveJson
    by_cases h : outDir ∈ fs.dirs <;> simp [h]
  refine ⟨hdir1, ?_, ?_, parseJson_serialize rec1, ?_, ?_,
    parseJson_serialize rec2, ?_⟩
  · show (if outDir ∈ (saveJson fs outDir rec1 fname).dirs then _ else _) = _
    rw [if_pos hdir1]
  · unfold readFile saveJson
    simp
  · intro c hc
    unfold escChar
    rw [if_neg (by rintro rfl; exact absurd hc (by decide)),
      if_neg (by rintro rfl; exact absurd hc (by decide)),
      if_neg (by rintro rfl; exact absurd hc (by decide)),
      if_neg (by rintro rfl; exact absurd hc (by decide)),
      if_neg (by rintro rfl; exact absurd hc (by decide)),
      if_neg (by rintro rfl; exact absurd hc (by decide)),
      if_neg (by rintro rfl; exact absurd hc (by decide)),
      if_neg (by omega)]
  · unfold readFile saveJson
    simp
  · have hzero : ∀ l : List (List Char × List Char),
        (l.filter (fun e => decide (e.1 ≠ pathJoin outDir fname))).countP
          (fun e => decide (e.1 = pathJoin outDir fname)) = 0 := by
      intro l
      rw [List.countP_eq_zero]
      intro e he
      have := List.of_mem_filter he
      simp only [decide_eq_true_eq] at this ⊢
      exact this
    unfold saveJson
    simp only [List.countP_cons, decide_eq_true_eq, if_pos rfl, hzero]
    simp

/-- An empty filesystem. -/
def emptyFS : FileSystem := ⟨[], []⟩

/-- A concrete crawler record with non-ASCII (CJK) content. -/
def sampleRecord : Json :=
  .obj [("LawName".data, .str "高雄市環境維護自治條例".data),
        ("LawArticles".data,
          .arr [.obj [("ArticleNo".data, .str "第 1 條".data),
                      ("ArticleContent".data, .str "為維護環境".data)]])]

theorem save_json_roundtrip_and_overwrite_witness :
    parseJson (serialize sampleRecord) = some sampleRecord ∧
      readFile (saveJson emptyFS "law_jsons".data sampleRecord "f.json".data)
          (pathJoin "law_jsons".data "f.json".data) =
        some (serialize sampleRecord) ∧
      escChar '條' = ['條'] := by
  obtain ⟨_, _, h3, h4, h5, _, _, _⟩ :=
    save_json_roundtrip_and_overwrite emptyFS "law_jsons".data sampleRecord
      sampleRecord "f.json".data
  exact ⟨h4, h3, h5 '條' (by decide)⟩
